import Mathlib

/-!
Verification development for the review orchestrator
(`review/scripts/review.py`) of the `skills` repository.

The Python source is shallowly embedded: every pure computation is
translated to a Lean function working over `String` / `List Char`, and
every external effect (subprocess call, HTTP call, terminal prompt) is
turned into an explicit parameter describing the outcome of that effect,
so the surrounding control flow stays a pure function of those outcomes.
Python regular-expression matching (`re.match`, i.e. *prefix* matching
unless the pattern is `$`-anchored) is rendered by deterministic
scanners: each character class in the source patterns is immediately
followed by a delimiter excluded from the class, so greedy matching
without backtracking is exact.  `\d` is modelled as the ASCII digits,
`[A-Z]` as the ASCII uppercase letters (`Char.isDigit` / `Char.isUpper`).
Python truthiness of optional strings (`None` and `""` are falsy) is
modelled by `optTruthy`.
-/

/-- `IssueRef.type` values, the closed set of backends
(`Literal["github", "linear", "sentry"]` in the source). -/
inductive IssueType where
  | github
  | linear
  | sentry
deriving DecidableEq, Repr

/-- `ctx.ref.type.upper()` as used by `printContext` and the markdown renderer. -/
def IssueType.upperName : IssueType → String
  | .github => "GITHUB"
  | .linear => "LINEAR"
  | .sentry => "SENTRY"

/-- `@dataclass IssueRef` from the source (`type`, `id`, optional `repo`). -/
structure IssueRef where
  type : IssueType
  id : String
  repo : Option String := none
deriving DecidableEq, Repr

/-- `@dataclass IssueContext` from the source. -/
structure IssueContext where
  ref : IssueRef
  title : String
  description : String
  comments : List String := []
  labels : List String := []
deriving DecidableEq, Repr

/-- Python truthiness of an optional string: `None` and `""` are falsy. -/
def optTruthy : Option String → Bool
  | none => false
  | some s => !s.isEmpty

/-! ### Literal fragments of the seven regular expressions in `parseIssueRef` -/

/-- `github\.com/` literal from rule 1. -/
def githubLit : List Char := ['g', 'i', 't', 'h', 'u', 'b', '.', 'c', 'o', 'm', '/']

/-- `linear\.app/` literal from rule 4. -/
def linearLit : List Char := ['l', 'i', 'n', 'e', 'a', 'r', '.', 'a', 'p', 'p', '/']

/-- `issue/` literal from rule 4. -/
def issueLit : List Char := ['i', 's', 's', 'u', 'e', '/']

/-- `issues/` alternative of rule 1's `(?:issues|pull)/`. -/
def issuesLit : List Char := ['i', 's', 's', 'u', 'e', 's', '/']

/-- `pull/` alternative of rule 1's `(?:issues|pull)/`. -/
def pullLit : List Char := ['p', 'u', 'l', 'l', '/']

/-- `sentry\.io` literal from rule 6 (the host must end with it,
because the regex is `[^/]*sentry\.io/issues/`). -/
def sentryIoLit : List Char := ['s', 'e', 'n', 't', 'r', 'y', '.', 'i', 'o']

/-- `/issues/` literal from rule 6. -/
def slashIssuesLit : List Char := ['/', 'i', 's', 's', 'u', 'e', 's', '/']

/-- `sentry:` literal from rule 7. -/
def sentryColonLit : List Char := ['s', 'e', 'n', 't', 'r', 'y', ':']

/-- `http` part of `https?://`. -/
def httpLit : List Char := ['h', 't', 't', 'p']

/-- `s://` completion of `https?://` when the optional `s` is present. -/
def sSchemeLit : List Char := ['s', ':', '/', '/']

/-- `://` completion of `https?://` when the optional `s` is absent. -/
def schemeRestLit : List Char := [':', '/', '/']

/-- Python `str.strip()` (on default whitespace) as a character-list
computation: drop whitespace from both ends. -/
def pyStrip (s : String) : List Char :=
  ((s.toList.dropWhile Char.isWhitespace).reverse.dropWhile Char.isWhitespace).reverse

/-- Match a literal prefix, returning the remainder of the input. -/
def dropLit : List Char → List Char → Option (List Char)
  | [], s => some s
  | _ :: _, [] => none
  | c :: cs, d :: ds => if c = d then dropLit cs ds else none

/-- Require one specific character next (a delimiter of the pattern),
returning the remainder. -/
def expectChar (c : Char) : List Char → Option (List Char)
  | d :: ds => if d = c then some ds else none
  | [] => none

/-- Require a character-class capture (already scanned by `takeWhile`)
to be non-empty, as the `+` quantifiers demand. -/
def guardNonempty (l : List Char) : Option Unit :=
  if l.isEmpty then none else some ()

/-- `(\d+)$`: a non-empty all-digit remainder. -/
def guardDigits (l : List Char) : Option Unit :=
  if !l.isEmpty && l.all Char.isDigit then some () else none

/-- `[A-Z0-9]+$`: a non-empty remainder of uppercase letters and digits. -/
def guardUpperDigits (l : List Char) : Option Unit :=
  if !l.isEmpty && l.all (fun c => c.isUpper || c.isDigit) then some () else none

/-- `[^/]*sentry\.io`: the slash-free host segment must end with
`sentry.io`. -/
def guardSentryHost (host : List Char) : Option Unit :=
  if sentryIoLit.isSuffixOf host then some () else none

/-- `https?://`: the optional `s` is committed iff present (the
backtracking alternative cannot succeed since `:` ≠ `s`). -/
def dropScheme (s : List Char) : Option (List Char) :=
  match dropLit httpLit s with
  | none => none
  | some r =>
    match dropLit sSchemeLit r with
    | some r2 => some r2
    | none => dropLit schemeRestLit r

/-- `(?:issues|pull)/` of rule 1, first alternative first. -/
def resourceDrop (r : List Char) : Option (List Char) :=
  match dropLit issuesLit r with
  | some r5 => some r5
  | none => dropLit pullLit r

/-- Rule 1 scanner, `https?://github\.com/([^/]+/[^/]+)/(?:issues|pull)/(\d+)`
(`re.match`, no end anchor).  Returns `(repo, id, rest-of-input)`. -/
def scanGithubUrl (s : List Char) : Option (String × String × List Char) :=
  (dropScheme s).bind fun r =>
  (dropLit githubLit r).bind fun r1 =>
  (guardNonempty (r1.takeWhile (fun c => decide (c ≠ '/')))).bind fun _ =>
  (expectChar '/' (r1.dropWhile (fun c => decide (c ≠ '/')))).bind fun r2 =>
  (guardNonempty (r2.takeWhile (fun c => decide (c ≠ '/')))).bind fun _ =>
  (expectChar '/' (r2.dropWhile (fun c => decide (c ≠ '/')))).bind fun r4 =>
  (resourceDrop r4).bind fun r5 =>
  (guardNonempty (r5.takeWhile Char.isDigit)).bind fun _ =>
  some (String.mk (r1.takeWhile (fun c => decide (c ≠ '/'))
          ++ '/' :: r2.takeWhile (fun c => decide (c ≠ '/'))),
        String.mk (r5.takeWhile Char.isDigit),
        r5.dropWhile Char.isDigit)

/-- Rule 1 as used by `parseIssueRef` (prefix match: trailing input ignored). -/
def matchGithubUrl (s : List Char) : Option (String × String) :=
  (scanGithubUrl s).map (fun p => (p.1, p.2.1))

/-- Rule 2, `^([^/]+/[^#]+)#(\d+)$` (fully anchored in the source).
Returns `(repo, id)`. -/
def matchRepoHash (s : List Char) : Option (String × String) :=
  (guardNonempty (s.takeWhile (fun c => decide (c ≠ '/')))).bind fun _ =>
  (expectChar '/' (s.dropWhile (fun c => decide (c ≠ '/')))).bind fun r2 =>
  (guardNonempty (r2.takeWhile (fun c => decide (c ≠ '#')))).bind fun _ =>
  (expectChar '#' (r2.dropWhile (fun c => decide (c ≠ '#')))).bind fun r4 =>
  (guardDigits r4).bind fun _ =>
  some (String.mk (s.takeWhile (fun c => decide (c ≠ '/'))
          ++ '/' :: r2.takeWhile (fun c => decide (c ≠ '#'))),
        String.mk r4)

/-- Rule 3, `^#(\d+)$` (fully anchored in the source). -/
def matchHashNum (s : List Char) : Option String :=
  match s with
  | '#' :: ds => if !ds.isEmpty && ds.all Char.isDigit then some (String.mk ds) else none
  | _ => none

/-- Rule 4 scanner, `https?://linear\.app/[^/]+/issue/([A-Z]+-[A-Z0-9]+)`
(`re.match`, no end anchor).  Returns `(key, rest-of-input)`. -/
def scanLinearUrl (s : List Char) : Option (String × List Char) :=
  (dropScheme s).bind fun r =>
  (dropLit linearLit r).bind fun r1 =>
  (guardNonempty (r1.takeWhile (fun c => decide (c ≠ '/')))).bind fun _ =>
  (expectChar '/' (r1.dropWhile (fun c => decide (c ≠ '/')))).bind fun r2 =>
  (dropLit issueLit r2).bind fun r3 =>
  (guardNonempty (r3.takeWhile Char.isUpper)).bind fun _ =>
  (expectChar '-' (r3.dropWhile Char.isUpper)).bind fun r5 =>
  (guardNonempty (r5.takeWhile (fun c => c.isUpper || c.isDigit))).bind fun _ =>
  some (String.mk (r3.takeWhile Char.isUpper
          ++ '-' :: r5.takeWhile (fun c => c.isUpper || c.isDigit)),
        r5.dropWhile (fun c => c.isUpper || c.isDigit))

/-- Rule 4 as used by `parseIssueRef` (prefix match). -/
def matchLinearUrl (s : List Char) : Option String :=
  (scanLinearUrl s).map (·.1)

/-- Rule 5, `^([A-Z]+-[A-Z0-9]+)$` (fully anchored in the source). -/
def matchLinearKey (s : List Char) : Option String :=
  (guardNonempty (s.takeWhile Char.isUpper)).bind fun _ =>
  (expectChar '-' (s.dropWhile Char.isUpper)).bind fun r2 =>
  (guardUpperDigits r2).bind fun _ =>
  some (String.mk (s.takeWhile Char.isUpper ++ '-' :: r2))

/-- Rule 6 scanner, `https?://[^/]*sentry\.io/issues/(\d+)` (`re.match`).
The `[^/]*sentry\.io` part matches exactly when the slash-free host
segment ends with `sentry.io`.  Returns `(id, rest-of-input)`. -/
def scanSentryUrl (s : List Char) : Option (String × List Char) :=
  (dropScheme s).bind fun r =>
  (guardSentryHost (r.takeWhile (fun c => decide (c ≠ '/')))).bind fun _ =>
  (dropLit slashIssuesLit (r.dropWhile (fun c => decide (c ≠ '/')))).bind fun r2 =>
  (guardNonempty (r2.takeWhile Char.isDigit)).bind fun _ =>
  some (String.mk (r2.takeWhile Char.isDigit), r2.dropWhile Char.isDigit)

/-- Rule 6 as used by `parseIssueRef` (prefix match). -/
def matchSentryUrl (s : List Char) : Option String :=
  (scanSentryUrl s).map (·.1)

/-- Rule 7, `^sentry:(\d+)$` (fully anchored in the source). -/
def matchSentryNum (s : List Char) : Option String :=
  match dropLit sentryColonLit s with
  | some ds => if !ds.isEmpty && ds.all Char.isDigit then some (String.mk ds) else none
  | none => none

/-- `parseIssueRef` (source lines 43–77): ordered first-match-wins over
the seven rules, applied to the stripped token (the caller strips; this
function takes the already-stripped character list). -/
def parseIssueRef (s : List Char) : Option IssueRef :=
  match matchGithubUrl s with
  | some p => some ⟨.github, p.2, some p.1⟩
  | none =>
    match matchRepoHash s with
    | some p => some ⟨.github, p.2, some p.1⟩
    | none =>
      match matchHashNum s with
      | some n => some ⟨.github, n, none⟩
      | none =>
        match matchLinearUrl s with
        | some k => some ⟨.linear, k, none⟩
        | none =>
          match matchLinearKey s with
          | some k => some ⟨.linear, k, none⟩
          | none =>
            match matchSentryUrl s with
            | some n => some ⟨.sentry, n, none⟩
            | none =>
              match matchSentryNum s with
              | some n => some ⟨.sentry, n, none⟩
              | none => none

/-! ### The reference grammar of spec §4.1

Modelled from the spec: §4.1 describes the same seven ordered rules as a
*grammar* of reference tokens, so each pattern is read as matching the
whole token ("bare token fully matching", rule 5), not merely a prefix.
In rule 2 `<owner>` and `<repo>` are path-segment names, i.e. free of
both `/` and `#`; in rule 6 the bracketed host description is read as
the slash-free host segment ending with `sentry.io` (the form the
source pattern `[^/]*sentry\.io` recognises).  Rules 3, 5 and 7 are
`$`-anchored in the source already, so grammar and source coincide
there and the same function is reused. -/

/-- Grammar rule 1: the whole token is the GitHub issue/PR URL. -/
def gramGithubUrl (s : List Char) : Option (String × String) :=
  (scanGithubUrl s).bind fun p =>
    if p.2.2.isEmpty then some (p.1, p.2.1) else none

/-- Grammar rule 2: `<owner>/<repo>#<number>` with slash- and hash-free
`<owner>`, `<repo>`, covering the whole token. -/
def segChar (c : Char) : Bool := decide (c ≠ '/' ∧ c ≠ '#')

/-- Grammar rule 2 continued: deterministic full-token scan. -/
def gramRepoHash (s : List Char) : Option (String × String) :=
  (guardNonempty (s.takeWhile segChar)).bind fun _ =>
  (expectChar '/' (s.dropWhile segChar)).bind fun r2 =>
  (guardNonempty (r2.takeWhile segChar)).bind fun _ =>
  (expectChar '#' (r2.dropWhile segChar)).bind fun r4 =>
  (guardDigits r4).bind fun _ =>
  some (String.mk (s.takeWhile segChar ++ '/' :: r2.takeWhile segChar), String.mk r4)

/-- Grammar rule 4: the whole token is the Linear issue URL. -/
def gramLinearUrl (s : List Char) : Option String :=
  (scanLinearUrl s).bind fun p => if p.2.isEmpty then some p.1 else none

/-- Grammar rule 6: the whole token is the Sentry issue URL. -/
def gramSentryUrl (s : List Char) : Option String :=
  (scanSentryUrl s).bind fun p => if p.2.isEmpty then some p.1 else none

/-- The §4.1 grammar as an ordered first-match-wins parse of the whole
token; `none` is "not recognized". -/
def specGrammarParse (s : List Char) : Option IssueRef :=
  match gramGithubUrl s with
  | some p => some ⟨.github, p.2, some p.1⟩
  | none =>
    match gramRepoHash s with
    | some p => some ⟨.github, p.2, some p.1⟩
    | none =>
      match matchHashNum s with
      | some n => some ⟨.github, n, none⟩
      | none =>
        match gramLinearUrl s with
        | some k => some ⟨.linear, k, none⟩
        | none =>
          match matchLinearKey s with
          | some k => some ⟨.linear, k, none⟩
          | none =>
            match gramSentryUrl s with
            | some n => some ⟨.sentry, n, none⟩
            | none =>
              match matchSentryNum s with
              | some n => some ⟨.sentry, n, none⟩
              | none => none

example : parseIssueRef "#42".toList = some ⟨.github, "42", none⟩ := by decide
example : parseIssueRef "acme/widgets#42".toList = some ⟨.github, "42", some "acme/widgets"⟩ := by
  decide
example : parseIssueRef "https://github.com/acme/widgets/pull/7".toList
    = some ⟨.github, "7", some "acme/widgets"⟩ := by decide
example : parseIssueRef "ENG-123".toList = some ⟨.linear, "ENG-123", none⟩ := by decide
example : parseIssueRef "sentry:987".toList = some ⟨.sentry, "987", none⟩ := by decide
example : parseIssueRef "https://github.com/a/b/issues/12xyz".toList
    = some ⟨.github, "12", some "a/b"⟩ := by decide
example : specGrammarParse "https://github.com/a/b/issues/12xyz".toList = none := by decide
example : specGrammarParse "sentry:987".toList = some ⟨.sentry, "987", none⟩ := by decide
example : parseIssueRef "???".toList = none := by decide
example : parseIssueRef "https://sentry.io/issues/12345".toList
    = some ⟨.sentry, "12345", none⟩ := by decide
example : parseIssueRef "https://org.sentry.io/issues/12345".toList
    = some ⟨.sentry, "12345", none⟩ := by decide
example : parseIssueRef "https://linear.app/team/issue/PROJ-123".toList
    = some ⟨.linear, "PROJ-123", none⟩ := by decide

/-! ### `printContext` (source lines 226–278)

The function writes to stderr via `typer.echo`; the model returns the
list of echoed strings (each `typer.echo(x)` contributes the element
`x`; the implicit final newline of each echo is not part of the
element).  Only the parse-failure diagnostics matter to the claims, so
informational `Fetching ...` echoes of the callers are not collected. -/

/-- `"=" * 60`. -/
def sepLine : String := String.mk (List.replicate 60 '=')

/-- `str(x)` on an optional string inside an f-string (`None` prints as `"None"`). -/
def pyStr : Option String → String
  | none => "None"
  | some s => s

/-- The echoes produced for one `IssueContext` inside `printContext`'s
`for ctx in issue_contexts` loop (source lines 242–261). -/
def issueLines (ctx : IssueContext) : List String :=
  ["\n### " ++ ctx.ref.type.upperName ++ ": " ++ ctx.ref.id,
   "**Title:** " ++ ctx.title]
  ++ (if ctx.labels.isEmpty then [] else
      ["**Labels:** " ++ String.intercalate ", " (ctx.labels.filter (fun l => !l.isEmpty))])
  ++ (if ctx.description.isEmpty then [] else
      ["\n" ++ (if 500 < ctx.description.length then
                  ctx.description.take 500 ++ "..."
                else ctx.description)])
  ++ (if ctx.comments.isEmpty then [] else
      ("\n**Comments:** (" ++ toString ctx.comments.length ++ " total)")
      :: (ctx.comments.take 2).map (fun c =>
            "  - " ++ (if 200 < c.length then c.take 200 ++ "..." else c)))

/-- The echoes for the plan block (source lines 263–269). -/
def planLines (plan_path : Option String) (plan_content : String) : List String :=
  ["\n## Plan File: " ++ pyStr plan_path,
   String.intercalate "\n" ((plan_content.splitOn "\n").take 10)]
  ++ (if 10 < (plan_content.splitOn "\n").length then ["..."] else [])

/-- The echoes for the referenced-files block (source lines 271–274). -/
def fileLines (file_paths : List String) : List String :=
  ("\n## Referenced Files (" ++ toString file_paths.length ++ ")")
  :: file_paths.map (fun p => "  - " ++ p)

/-- `printContext` (source lines 226–278): the guard at line 233 returns
early (producing no echoes) when issues, plan content and file paths are
all empty/falsy. -/
def printContext (issue_contexts : List IssueContext) (plan_path : Option String)
    (plan_content : Option String) (file_paths : List String) : List String :=
  if issue_contexts.isEmpty && !optTruthy plan_content && file_paths.isEmpty then []
  else
    ["\n" ++ sepLine, "GATHERED CONTEXT", sepLine]
    ++ (if issue_contexts.isEmpty then [] else
        "\n## Related Issues" :: (issue_contexts.map issueLines).flatten)
    ++ (if optTruthy plan_content then planLines plan_path (plan_content.getD "") else [])
    ++ (if file_paths.isEmpty then [] else fileLines file_paths)
    ++ ["\n" ++ sepLine, "STARTING CODEX REVIEW", sepLine ++ "\n"]

/-! ### `hasUncommittedChanges` (source lines 281–287)

The subprocess call is replaced by its outcome: either the `git`
executable could not be spawned (Python raises `FileNotFoundError`,
which `hasUncommittedChanges` does not catch), or it ran and produced a
return code plus captured stdout. -/

/-- Outcome of `subprocess.run(["git", "status", "--porcelain"], ...)`. -/
inductive GitStatusOutcome where
  | spawnFailure
  | ran (returncode : Nat) (stdout : String)
deriving DecidableEq, Repr

/-- `hasUncommittedChanges`: `bool(result.stdout.strip())`; a spawn
failure propagates as an uncaught exception (`Except.error`). -/
def hasUncommittedChanges : GitStatusOutcome → Except Unit Bool
  | .spawnFailure => .error ()
  | .ran _ out => .ok (!(pyStrip out).isEmpty)

/-! ### `promptForCompareTarget` (source lines 290–314) and the
diff-source resolution inside `codex` (source lines 353–360) -/

/-- Result of `promptForCompareTarget`: either the `(base, commit)` pair
it returns, or `raise typer.Exit(code)`. -/
inductive PromptResult where
  | target (base commit : Option String)
  | exitCode (code : Nat)
deriving DecidableEq, Repr

/-- `promptForCompareTarget`, with the operator's selected option and
the two possible follow-up free-text answers as parameters.  (An empty
terminal input is resolved to the default `"1"` by `typer.prompt`
before this match runs.) -/
def promptForCompareTarget (choice branchInput shaInput : String) : PromptResult :=
  match choice with
  | "1" => .target (some "main") none
  | "2" => .target (some branchInput) none
  | "3" => .target none (some shaInput)
  | _ => .exitCode 0

/-- Control flow of `codex` after diff-source resolution: either it
proceeds with the final `(uncommitted, base, commit)` values, or the
whole command terminated via `typer.Exit code`. -/
inductive ResolvedFlow where
  | proceed (uncommitted : Bool) (base commit : Option String)
  | cancelled (code : Nat)
deriving DecidableEq, Repr

/-- Source lines 353–360: `explicit_source = uncommitted or commit or
base`; when not explicit, a dirty tree forces `uncommitted = True`,
otherwise the interactive prompt supplies `(base, commit)` or exits. -/
def resolveDiffSource (uncommitted : Bool) (commit base : Option String)
    (hasChanges : Bool) (choice branchInput shaInput : String) : ResolvedFlow :=
  let explicit := uncommitted || optTruthy commit || optTruthy base
  if explicit then .proceed uncommitted base commit
  else if hasChanges then .proceed true base commit
  else
    match promptForCompareTarget choice branchInput shaInput with
    | .target b c => .proceed uncommitted b c
    | .exitCode n => .cancelled n

/-- The `DiffSource` sum of the spec's data model (§3). -/
inductive DiffSource where
  | uncommitted
  | commit (sha : String)
  | base (branch : String)
deriving DecidableEq, Repr

/-- Which diff source a proceeding flow denotes, following the flag
precedence of the command construction (source lines 401–410):
`uncommitted` before `commit` before `base`, with `--base main` as the
unreachable fallback. -/
def resolvedToSource : ResolvedFlow → Option DiffSource
  | .proceed u b c =>
      some (if u then .uncommitted
            else if optTruthy c then .commit (c.getD "")
            else if optTruthy b then .base (b.getD "")
            else .base "main")
  | .cancelled _ => none

/-! ### The codex argument vector (source lines 398–417) -/

/-- Source lines 398–417: `cmd = ["codex", "review"]`, one diff-source
flag (with `--base main` as the defensive default), the model override
`-c model="<model>"`, and `--title` when a truthy title was supplied. -/
def buildCodexCmd (uncommitted : Bool) (commit base : Option String)
    (model : String) (title : Option String) : List String :=
  ["codex", "review"]
  ++ (if uncommitted then ["--uncommitted"]
      else if optTruthy commit then ["--commit", commit.getD ""]
      else if optTruthy base then ["--base", base.getD ""]
      else ["--base", "main"])
  ++ ["-c", "model=\"" ++ model ++ "\""]
  ++ (if optTruthy title then ["--title", title.getD ""] else [])

/-- The CLI inputs `(uncommitted, commit, base)` describing each resolved
diff source. -/
def diffSourceInputs : DiffSource → Bool × Option String × Option String
  | .uncommitted => (true, none, none)
  | .commit sha => (false, some sha, none)
  | .base b => (false, none, some b)

/-- The single diff-source flag group of each variant. -/
def diffSourceFlags : DiffSource → List String
  | .uncommitted => ["--uncommitted"]
  | .commit sha => ["--commit", sha]
  | .base b => ["--base", b]

/-- A resolved diff source carries a non-empty sha/branch (both are
obtained from a non-empty CLI flag or a non-empty `typer.prompt` answer). -/
def diffSourceWf : DiffSource → Prop
  | .uncommitted => True
  | .commit sha => ¬sha.isEmpty
  | .base b => ¬b.isEmpty

/-! ### `fetchGithubIssue` (source lines 80–107)

The two `gh` invocations are replaced by their outcomes.  `parsed`
models `json.loads(result.stdout)` together with the `.get` defaulting
of lines 100–103: `some d` is a successful parse (already normalised to
title/body/comments/labels), `none` a raised exception (malformed
output).  Parsing is only attempted on a zero return code. -/

/-- Normalised fields read out of the `gh --json` payload. -/
structure GhIssueData where
  title : String := ""
  body : String := ""
  comments : List String := []
  labels : List String := []
deriving DecidableEq, Repr

/-- Outcome of one `subprocess.run(["gh", resource, "view", ...])`. -/
structure GhOutcome where
  returncode : Nat
  parsed : Option GhIssueData
deriving DecidableEq, Repr

/-- Result of the fetch: the produced context, whether the exception
handler at lines 105–106 emitted a warning, and which resource views
were actually attempted (in order). -/
structure GhFetchResult where
  result : Option IssueContext
  warned : Bool
  attempted : List String
deriving DecidableEq, Repr

/-- `fetchGithubIssue`: try `issue` then `pr`; a zero exit returns the
parsed context, a parse exception aborts the loop into the handler
(warning, `None`), and two non-zero exits fall off the loop returning
`None` with no warning. -/
def fetchGithubIssue (ref : IssueRef) (issueOutcome prOutcome : GhOutcome) :
    GhFetchResult :=
  if issueOutcome.returncode = 0 then
    match issueOutcome.parsed with
    | some d => ⟨some ⟨ref, d.title, d.body, d.comments, d.labels⟩, false, ["issue"]⟩
    | none => ⟨none, true, ["issue"]⟩
  else
    if prOutcome.returncode = 0 then
      match prOutcome.parsed with
      | some d => ⟨some ⟨ref, d.title, d.body, d.comments, d.labels⟩, false, ["issue", "pr"]⟩
      | none => ⟨none, true, ["issue", "pr"]⟩
    else ⟨none, false, ["issue", "pr"]⟩

/-! ### `fetchSentryIssue` (source lines 164–211)

The metadata call (`GET /issues/{id}/` + `raise_for_status` + `.json()`)
is modelled as `Option SentryIssueData` (`none` = any raised exception,
including non-2xx).  The latest-event call is `Option (Nat × List
SentryEntry)`: `none` when `client.get` (or `.json()` at status 200)
raises, otherwise the status code and the parsed `entries`. -/

/-- Fields read out of the Sentry issue-metadata payload. -/
structure SentryIssueData where
  title : String := ""
  metaValue : String := ""
  level : String := ""
  status : String := ""
deriving DecidableEq, Repr

/-- One element of the latest event's `entries`, with
`json.dumps(entry.get("data", {}), indent=2)` precomputed. -/
structure SentryEntry where
  entryType : String
  dataDump : String
deriving DecidableEq, Repr

/-- The `for entry in entries` loop with `break` (source lines 194–197):
the dump of the first entry of type `exception`, else `""`. -/
def findExceptionData : List SentryEntry → String
  | [] => ""
  | e :: es => if e.entryType = "exception" then e.dataDump else findExceptionData es

/-- `fetchSentryIssue`: missing token warns and skips; a metadata
exception warns and fails; an exception during the latest-event call is
caught by the same outer handler (warning, `None`); otherwise the
context is built, with the stack-trace block only on a 200 event
response holding an exception entry. -/
def fetchSentryIssue (ref : IssueRef) (tokenPresent : Bool)
    (metaOutcome : Option SentryIssueData)
    (eventOutcome : Option (Nat × List SentryEntry)) :
    Option IssueContext × Bool :=
  if !tokenPresent then (none, true)
  else
    match metaOutcome with
    | none => (none, true)
    | some issue =>
      match eventOutcome with
      | none => (none, true)
      | some (status, entries) =>
        let event_data := if status = 200 then findExceptionData entries else ""
        let description := issue.metaValue
          ++ (if event_data.isEmpty then ""
              else "\n\nStack trace:\n```\n" ++ event_data ++ "\n```")
        (some ⟨ref, issue.title, description, [], [issue.level, issue.status]⟩, false)

/-! ### The issue-reference loops of `codex` (source lines 362–374) and
`context` (source lines 441–448)

Fetching is abstracted as a function from parsed reference to optional
context.  Each loop returns the gathered contexts (in input order) and
the parse-failure warnings it echoed. -/

/-- The `codex` loop body over the already-split tokens: unparseable
tokens warn (naming the raw token) and are skipped. -/
def codexIssueLoop (fetch : IssueRef → Option IssueContext) :
    List String → List IssueContext × List String
  | [] => ([], [])
  | t :: ts =>
    let rest := codexIssueLoop fetch ts
    match parseIssueRef (pyStrip t) with
    | some ref =>
      match fetch ref with
      | some ctx => (ctx :: rest.1, rest.2)
      | none => rest
    | none => (rest.1, ("Warning: Could not parse issue reference: " ++ t) :: rest.2)

/-- The `context` loop body: identical except there is no `else` branch,
so unparseable tokens are skipped silently. -/
def contextIssueLoop (fetch : IssueRef → Option IssueContext) :
    List String → List IssueContext × List String
  | [] => ([], [])
  | t :: ts =>
    let rest := contextIssueLoop fetch ts
    match parseIssueRef (pyStrip t) with
    | some ref =>
      match fetch ref with
      | some ctx => (ctx :: rest.1, rest.2)
      | none => rest
    | none => rest

/-! ### The `context` command's two renderings (source lines 468–512) -/

/-- One element of the JSON `issues` array (source lines 470–481). -/
structure IssueJson where
  type : IssueType
  id : String
  repo : Option String
  title : String
  description : String
  labels : List String
  comments : List String
deriving DecidableEq, Repr

/-- The JSON document of `context --output json` (source lines 468–485),
as structured data (serialisation preserves it verbatim). -/
structure ContextJsonData where
  issues : List IssueJson
  plan : Option (Option String × String)
  files : List (String × String)
deriving DecidableEq, Repr

/-- Source lines 468–485: every field verbatim; `plan` is the
path/content pair when the content is truthy; `files` carries the full
read contents with no cap. -/
def contextJsonOutput (issue_contexts : List IssueContext) (plan : Option String)
    (plan_content : Option String) (file_contents : List (String × String)) :
    ContextJsonData :=
  { issues := issue_contexts.map (fun ctx =>
      ⟨ctx.ref.type, ctx.ref.id, ctx.ref.repo, ctx.title, ctx.description,
       ctx.labels, ctx.comments⟩)
  , plan := if optTruthy plan_content then some (plan, plan_content.getD "") else none
  , files := file_contents }

/-- The markdown rendering of `context` (source lines 487–512), as the
list of echoed strings: comments capped at 5 and sliced to 300
characters (ellipsis always appended), file contents sliced to 2000
characters. -/
def contextMarkdownOutput (issue_contexts : List IssueContext) (plan : Option String)
    (plan_content : Option String) (file_contents : List (String × String)) :
    List String :=
  (if issue_contexts.isEmpty then [] else
    "# Related Issues\n" ::
    (issue_contexts.map (fun ctx =>
      ["## " ++ ctx.ref.type.upperName ++ ": " ++ ctx.ref.id,
       "**Title:** " ++ ctx.title]
      ++ (if ctx.labels.isEmpty then [] else
          ["**Labels:** " ++ String.intercalate ", " (ctx.labels.filter (fun l => !l.isEmpty))])
      ++ ["\n" ++ ctx.description ++ "\n"]
      ++ (if ctx.comments.isEmpty then [] else
          "**Comments:**" :: (ctx.comments.take 5).map (fun c => "- " ++ c.take 300 ++ "..."))
      ++ [""])).flatten)
  ++ (if optTruthy plan_content then
        ["# Plan: " ++ pyStr plan ++ "\n", plan_content.getD "", ""] else [])
  ++ (if file_contents.isEmpty then [] else
      "# Referenced Files\n" ::
      (file_contents.map (fun pc =>
        ["## " ++ pc.1, "```\n" ++ pc.2.take 2000 ++ "\n```", ""])).flatten)

/-! ## Claim theorems -/

/-- C2: the codex argument vector is a pure function of the resolved
diff source, the model and the optional title: it is `["codex",
"review"]`, followed by exactly the one flag group of the diff-source
variant (`--uncommitted`, `--commit <sha>` or `--base <branch>`),
always followed by the configuration override `-c model="<model>"`,
followed by `--title <title>` exactly when a (truthy) title was
supplied. -/
theorem buildCodexCmd_pure_spec (d : DiffSource) (model : String) (title : Option String)
    (hd : diffSourceWf d) :
    buildCodexCmd (diffSourceInputs d).1 (diffSourceInputs d).2.1 (diffSourceInputs d).2.2
        model title
      = ["codex", "review"] ++ diffSourceFlags d
        ++ ["-c", "model=\"" ++ model ++ "\""]
        ++ (if optTruthy title then ["--title", title.getD ""] else []) := by
  cases d with
  | uncommitted =>
    simp [buildCodexCmd, diffSourceInputs, diffSourceFlags]
  | commit sha =>
    have h : sha.isEmpty = false := Bool.eq_false_iff.mpr hd
    simp [buildCodexCmd, diffSourceInputs, diffSourceFlags, optTruthy, h]
  | base b =>
    have h : b.isEmpty = false := Bool.eq_false_iff.mpr hd
    simp [buildCodexCmd, diffSourceInputs, diffSourceFlags, optTruthy, h]

/-- C2 witness: the theorem applied to `Commit "abc123"` with a title. -/
theorem buildCodexCmd_pure_spec_witness :
    buildCodexCmd (diffSourceInputs (DiffSource.commit "abc123")).1
        (diffSourceInputs (DiffSource.commit "abc123")).2.1
        (diffSourceInputs (DiffSource.commit "abc123")).2.2
        "gpt-5.1-codex-max" (some "Fix race")
      = ["codex", "review"] ++ diffSourceFlags (DiffSource.commit "abc123")
        ++ ["-c", "model=\"" ++ "gpt-5.1-codex-max" ++ "\""]
        ++ (if optTruthy (some "Fix race") then
              ["--title", (some "Fix race").getD ""] else []) :=
  buildCodexCmd_pure_spec (DiffSource.commit "abc123") "gpt-5.1-codex-max"
    (some "Fix race") (by unfold diffSourceWf; decide)

/-- C3: (1) an explicit non-empty commit resolves to `Commit sha` for
every working-tree state (the `hasChanges` parameter is universally
quantified, so the result does not depend on the status query);
(2) with no explicit source and a dirty tree the resolution is
`Uncommitted`; (3) with no explicit source, a clean tree and operator
choice `"4"` the flow terminates via `typer.Exit 0` — a clean
cancellation with no review invocation. -/
theorem resolveDiffSource_spec :
    (∀ (sha : String) (base : Option String) (hasChanges : Bool)
        (choice bi si : String), ¬sha.isEmpty →
      resolveDiffSource false (some sha) base hasChanges choice bi si
          = .proceed false base (some sha)
        ∧ resolvedToSource (resolveDiffSource false (some sha) base hasChanges choice bi si)
          = some (.commit sha))
    ∧ (∀ (commit base : Option String) (choice bi si : String),
        optTruthy commit = false → optTruthy base = false →
          resolveDiffSource false commit base true choice bi si = .proceed true base commit
          ∧ resolvedToSource (resolveDiffSource false commit base true choice bi si)
            = some .uncommitted)
    ∧ (∀ (commit base : Option String) (bi si : String),
        optTruthy commit = false → optTruthy base = false →
          resolveDiffSource false commit base false "4" bi si = .cancelled 0) := by
  refine ⟨?_, ?_, ?_⟩
  · intro sha base hasChanges choice bi si hsha
    have h : sha.isEmpty = false := Bool.eq_false_iff.mpr hsha
    constructor <;> simp [resolveDiffSource, resolvedToSource, optTruthy, h]
  · intro commit base choice bi si hc hb
    constructor <;> simp [resolveDiffSource, resolvedToSource, hc, hb]
  · intro commit base bi si hc hb
    simp [resolveDiffSource, promptForCompareTarget, hc, hb]

/-- C3 witness: the three parts applied at concrete inputs. -/
theorem resolveDiffSource_spec_witness :
    (resolveDiffSource false (some "abc123") none true "oops" "b" "s"
        = .proceed false none (some "abc123")
      ∧ resolvedToSource (resolveDiffSource false (some "abc123") none true "oops" "b" "s")
        = some (.commit "abc123"))
    ∧ (resolveDiffSource false none none true "1" "b" "s" = .proceed true none none
      ∧ resolvedToSource (resolveDiffSource false none none true "1" "b" "s")
        = some .uncommitted)
    ∧ resolveDiffSource false none none false "4" "b" "s" = .cancelled 0 :=
  ⟨resolveDiffSource_spec.1 "abc123" none true "oops" "b" "s" (by decide),
   resolveDiffSource_spec.2.1 none none "1" "b" "s" rfl rfl,
   resolveDiffSource_spec.2.2 none none "b" "s" rfl rfl⟩

/-- C4 counterexample: when the `git` executable cannot be spawned,
`hasUncommittedChanges` does not return `False` (the claimed "no
pending changes"); the `FileNotFoundError` propagates uncaught. -/
theorem hasUncommittedChanges_spawnFailure_raises :
    hasUncommittedChanges .spawnFailure = .error ()
    ∧ hasUncommittedChanges .spawnFailure ≠ .ok false :=
  ⟨rfl, by simp [hasUncommittedChanges]⟩

/-- C4 amended: a status query that runs and errors (non-zero exit,
empty captured stdout) is treated as "no pending changes", sending the
flow to the interactive path; but an *absent* version-control binary
makes the spawn raise, and the exception escapes `hasUncommittedChanges`
uncaught, crashing the command. -/
theorem hasUncommittedChanges_amended :
    (∀ rc : Nat, hasUncommittedChanges (.ran rc "") = .ok false)
    ∧ hasUncommittedChanges .spawnFailure = .error () :=
  ⟨fun _ => rfl, rfl⟩

/-- C10: every operator choice other than `"1"`, `"2"`, `"3"` hits the
catch-all arm of `promptForCompareTarget` and terminates the operation
cleanly via `typer.Exit 0`. -/
theorem promptForCompareTarget_catchall (choice branchInput shaInput : String)
    (h1 : choice ≠ "1") (h2 : choice ≠ "2") (h3 : choice ≠ "3") :
    promptForCompareTarget choice branchInput shaInput = .exitCode 0 := by
  unfold promptForCompareTarget
  split <;> simp_all

/-- C10 witness: a typo cancels cleanly. -/
theorem promptForCompareTarget_catchall_witness :
    promptForCompareTarget "q" "b" "s" = .exitCode 0 :=
  promptForCompareTarget_catchall "q" "b" "s" (by decide) (by decide) (by decide)

/-- C5: (a) an all-empty bundle renders nothing (no headers at all);
(b) an issue whose description exceeds 500 characters renders the
description as exactly its first 500 characters plus the `...` marker,
with at most 2 comments each sliced to 200 characters — shown by the
exact list of echoes for that issue, and the truncated description line
appearing in the full `printContext` output; (c) plan content renders
restricted to its first 10 lines. -/
theorem printContext_preview_spec :
    (∀ (pp pc : Option String), optTruthy pc = false → printContext [] pp pc [] = [])
    ∧ (∀ ctx : IssueContext, 500 < ctx.description.length →
        issueLines ctx
          = ["\n### " ++ ctx.ref.type.upperName ++ ": " ++ ctx.ref.id,
             "**Title:** " ++ ctx.title]
            ++ (if ctx.labels.isEmpty then [] else
                ["**Labels:** "
                  ++ String.intercalate ", " (ctx.labels.filter (fun l => !l.isEmpty))])
            ++ ["\n" ++ (ctx.description.take 500 ++ "...")]
            ++ (if ctx.comments.isEmpty then [] else
                ("\n**Comments:** (" ++ toString ctx.comments.length ++ " total)")
                :: (ctx.comments.take 2).map (fun c =>
                      "  - " ++ (if 200 < c.length then c.take 200 ++ "..." else c)))
          ∧ ("\n" ++ (ctx.description.take 500 ++ "..."))
              ∈ printContext [ctx] none none [])
    ∧ (∀ (pp : Option String) (pc : String), ¬pc.isEmpty →
        String.intercalate "\n" ((pc.splitOn "\n").take 10)
          ∈ printContext [] pp (some pc) []) := by
  refine ⟨?_, ?_, ?_⟩
  · intro pp pc h
    simp [printContext, h]
  · intro ctx hlen
    have hne : ctx.description ≠ "" := by
      intro h
      rw [h] at hlen
      simp at hlen
    have hemp : ctx.description.isEmpty = false :=
      Bool.eq_false_iff.mpr (fun h => hne ((String.isEmpty_iff _).mp h))
    constructor
    · simp [issueLines, hemp, hlen]
    · have hmem : ("\n" ++ (ctx.description.take 500 ++ "...")) ∈ issueLines ctx := by
        simp [issueLines, hemp, hlen]
      simp only [printContext, List.isEmpty_cons, optTruthy, Bool.not_false,
        Bool.and_self, List.isEmpty_nil, Bool.false_and, if_neg]
      simp only [List.map_cons, List.map_nil, List.flatten]
      refine List.mem_append.mpr (Or.inl ?_)
      refine List.mem_append.mpr (Or.inl ?_)
      refine List.mem_append.mpr (Or.inl ?_)
      refine List.mem_append.mpr (Or.inr ?_)
      simp only [List.isEmpty_cons, Bool.false_eq_true, if_false]
      exact List.mem_cons_of_mem _ (by simpa using hmem)
  · intro pp pc h
    have hemp : pc.isEmpty = false := Bool.eq_false_iff.mpr h
    have hmem : String.intercalate "\n" ((pc.splitOn "\n").take 10)
        ∈ planLines pp pc := by
      simp [planLines]
    simp only [printContext, optTruthy, hemp, Bool.not_false, List.isEmpty_nil,
      Bool.and_false, Bool.false_and, Bool.and_self, if_neg, Option.getD_some]
    refine List.mem_append.mpr (Or.inl ?_)
    refine List.mem_append.mpr (Or.inl ?_)
    refine List.mem_append.mpr (Or.inr ?_)
    simpa using hmem

/-- C5 witness: the theorem applied to an empty bundle, a 501-character
description and a 12-line plan. -/
theorem printContext_preview_spec_witness :
    printContext [] none none [] = []
    ∧ ("\n" ++ ((String.mk (List.replicate 501 'a')).take 500 ++ "..."))
        ∈ printContext
            [⟨⟨.github, "1", none⟩, "T", String.mk (List.replicate 501 'a'), [], []⟩]
            none none []
    ∧ String.intercalate "\n" ((("a\nb").splitOn "\n").take 10)
        ∈ printContext [] (some "plan.md") (some "a\nb") [] :=
  ⟨printContext_preview_spec.1 none none rfl,
   (printContext_preview_spec.2.1
      ⟨⟨.github, "1", none⟩, "T", String.mk (List.replicate 501 'a'), [], []⟩
      (by rw [String.length_mk, List.length_replicate]; omega)).2,
   printContext_preview_spec.2.2 (some "plan.md") "a\nb" (by decide)⟩

/-- C6 counterexample: when both the `issue` and the `pr` view exit
non-zero, `fetchGithubIssue` returns `None` with *no* warning: the
warning branch (the exception handler) never runs, contradicting the
claim that failure of both views emits a warning. -/
theorem fetchGithubIssue_silent_failure :
    fetchGithubIssue ⟨.github, "42", none⟩ ⟨1, none⟩ ⟨1, none⟩
      = ⟨none, false, ["issue", "pr"]⟩ := rfl

/-- C6 amended: the views are tried in order `issue`, `pr`; a zero exit
with parsed output succeeds; *both* views exiting non-zero yields `None`
silently (no warning); and a zero exit whose output fails to parse
raises, yielding `None` *with* a warning but without attempting the
remaining view. -/
theorem fetchGithubIssue_amended :
    (∀ (ref : IssueRef) (i p : GhOutcome) (d : GhIssueData),
        i.returncode = 0 → i.parsed = some d →
          fetchGithubIssue ref i p
            = ⟨some ⟨ref, d.title, d.body, d.comments, d.labels⟩, false, ["issue"]⟩)
    ∧ (∀ (ref : IssueRef) (i p : GhOutcome) (d : GhIssueData),
        i.returncode ≠ 0 → p.returncode = 0 → p.parsed = some d →
          fetchGithubIssue ref i p
            = ⟨some ⟨ref, d.title, d.body, d.comments, d.labels⟩, false, ["issue", "pr"]⟩)
    ∧ (∀ (ref : IssueRef) (i p : GhOutcome),
        i.returncode ≠ 0 → p.returncode ≠ 0 →
          fetchGithubIssue ref i p = ⟨none, false, ["issue", "pr"]⟩)
    ∧ (∀ (ref : IssueRef) (i p : GhOutcome),
        i.returncode = 0 → i.parsed = none →
          fetchGithubIssue ref i p = ⟨none, true, ["issue"]⟩) := by
  refine ⟨?_, ?_, ?_, ?_⟩ <;> intros <;> simp_all [fetchGithubIssue]

/-- C6 witness: the `pr` fallback applied at concrete outcomes. -/
theorem fetchGithubIssue_amended_witness :
    fetchGithubIssue ⟨.github, "7", some "acme/widgets"⟩ ⟨1, none⟩
        ⟨0, some ⟨"T", "B", ["c1"], ["bug"]⟩⟩
      = ⟨some ⟨⟨.github, "7", some "acme/widgets"⟩, "T", "B", ["c1"], ["bug"]⟩,
         false, ["issue", "pr"]⟩ :=
  fetchGithubIssue_amended.2.1 ⟨.github, "7", some "acme/widgets"⟩ ⟨1, none⟩
    ⟨0, some ⟨"T", "B", ["c1"], ["bug"]⟩⟩ ⟨"T", "B", ["c1"], ["bug"]⟩
    (by decide) rfl rfl

/-- C7 counterexample: the issue-metadata call succeeded, but the
latest-event call raised; the whole fetch returns `None` (with a
warning) instead of the claimed `IssueContext`. -/
theorem fetchSentryIssue_event_exception_fails :
    fetchSentryIssue ⟨.sentry, "987", none⟩ true
        (some ⟨"TypeError", "boom", "error", "unresolved"⟩) none
      = (none, true) := rfl

/-- C7 amended: when the latest-event call *returns* unsuccessfully
(any non-200 status), the fetch still produces the `IssueContext`, only
without the stack-trace enrichment; but when the latest-event call
*raises*, the shared exception handler fails the whole fetch. -/
theorem fetchSentryIssue_amended :
    (∀ (ref : IssueRef) (issue : SentryIssueData) (st : Nat)
        (entries : List SentryEntry), st ≠ 200 →
      fetchSentryIssue ref true (some issue) (some (st, entries))
        = (some ⟨ref, issue.title, issue.metaValue, [], [issue.level, issue.status]⟩,
           false))
    ∧ (∀ (ref : IssueRef) (issue : SentryIssueData),
        fetchSentryIssue ref true (some issue) none = (none, true)) := by
  constructor
  · intro ref issue st entries hst
    simp [fetchSentryIssue, hst, String.isEmpty_iff]
  · intro ref issue
    rfl

/-- C7 witness: a 404 on the latest-event call leaves the fetch intact. -/
theorem fetchSentryIssue_amended_witness :
    fetchSentryIssue ⟨.sentry, "987", none⟩ true
        (some ⟨"TypeError", "boom", "error", "unresolved"⟩) (some (404, []))
      = (some ⟨⟨.sentry, "987", none⟩, "TypeError", "boom", [],
              ["error", "unresolved"]⟩, false) :=
  fetchSentryIssue_amended.1 ⟨.sentry, "987", none⟩
    ⟨"TypeError", "boom", "error", "unresolved"⟩ 404 [] (by decide)

/-- C8 counterexample: on an unparseable token the `codex` loop warns
(naming the token) and continues, but the `context` loop produces *no*
warning at all — it skips the token silently — refuting the claim that
every command accepting reference tokens warns. -/
theorem contextIssueLoop_no_warning :
    codexIssueLoop (fun _ => none) ["???"]
        = ([], ["Warning: Could not parse issue reference: ???"])
    ∧ contextIssueLoop (fun _ => none) ["???"] = ([], []) :=
  ⟨rfl, rfl⟩

/-- C8 amended: both loops continue past an unparseable token with the
remaining tokens' results unchanged; the `codex` loop additionally
pushes a warning naming the raw token, while the `context` loop skips
it without any warning. -/
theorem issueLoop_warn_continue_amended :
    (∀ (fetch : IssueRef → Option IssueContext) (t : String) (ts : List String),
        parseIssueRef (pyStrip t) = none →
          codexIssueLoop fetch (t :: ts)
            = ((codexIssueLoop fetch ts).1,
               ("Warning: Could not parse issue reference: " ++ t)
                 :: (codexIssueLoop fetch ts).2))
    ∧ (∀ (fetch : IssueRef → Option IssueContext) (t : String) (ts : List String),
        parseIssueRef (pyStrip t) = none →
          contextIssueLoop fetch (t :: ts) = contextIssueLoop fetch ts) := by
  constructor <;> intro fetch t ts h <;> simp [codexIssueLoop, contextIssueLoop, h]

/-- C8 witness: the codex loop applied to a bad token ahead of more input. -/
theorem issueLoop_warn_continue_amended_witness :
    codexIssueLoop (fun _ => none) ["???", "#42"]
      = ((codexIssueLoop (fun _ => none) ["#42"]).1,
         ("Warning: Could not parse issue reference: " ++ "???")
           :: (codexIssueLoop (fun _ => none) ["#42"]).2) :=
  issueLoop_warn_continue_amended.1 (fun _ => none) "???" ["#42"] (by decide)

/-- C9 counterexample: a file whose content is 2001 characters long
appears in the JSON rendering in full (no 2000-character cap), while it
is the *markdown* (human-readable) rendering that slices it to 2000
characters — the opposite of the claim. -/
theorem contextJson_files_untruncated :
    (contextJsonOutput [] none none
        [("f.txt", String.mk (List.replicate 2001 'a'))]).files
      = [("f.txt", String.mk (List.replicate 2001 'a'))]
    ∧ 2000 < (String.mk (List.replicate 2001 'a')).length
    ∧ ("```\n" ++ (String.mk (List.replicate 2001 'a')).take 2000 ++ "\n```")
        ∈ contextMarkdownOutput [] none none
            [("f.txt", String.mk (List.replicate 2001 'a'))]
    ∧ (String.mk (List.replicate 2001 'a')).take 2000
        ≠ String.mk (List.replicate 2001 'a') := by
  refine ⟨rfl, by rw [String.length_mk, List.length_replicate]; omega, ?_, ?_⟩
  · simp only [contextMarkdownOutput, List.isEmpty_nil, List.isEmpty_cons, optTruthy,
      if_true, Bool.false_eq_true, if_false, List.nil_append, List.map_cons,
      List.map_nil, List.flatten_cons, List.flatten_nil, List.append_nil]
    exact List.mem_cons_of_mem _ (List.mem_cons_of_mem _ (List.mem_cons_self _ _))
  · intro h
    rw [String.take_eq] at h
    have h2 := congrArg String.length h
    simp only [String.length_mk, List.length_take, List.length_replicate] at h2
    omega

/-- C9 amended: the JSON form of `context` carries every field
untruncated, including the *full* file contents (no cap); the
2000-character per-file cap applies to the markdown (human-readable)
rendering instead. -/
theorem contextRender_amended :
    (∀ (ics : List IssueContext) (pl pc : Option String)
        (fcs : List (String × String)),
      (contextJsonOutput ics pl pc fcs).files = fcs
        ∧ (contextJsonOutput ics pl pc fcs).issues.map IssueJson.description
            = ics.map IssueContext.description
        ∧ (contextJsonOutput ics pl pc fcs).issues.map IssueJson.comments
            = ics.map IssueContext.comments)
    ∧ (∀ (ics : List IssueContext) (pl pc : Option String)
        (fcs : List (String × String)) (p c : String), (p, c) ∈ fcs →
          ("```\n" ++ c.take 2000 ++ "\n```") ∈ contextMarkdownOutput ics pl pc fcs) := by
  constructor
  · intro ics pl pc fcs
    refine ⟨rfl, ?_, ?_⟩ <;> simp [contextJsonOutput, List.map_map, Function.comp]
  · intro ics pl pc fcs p c hmem
    have hne : fcs.isEmpty = false := by
      cases fcs with
      | nil => simp at hmem
      | cons a as => rfl
    simp only [contextMarkdownOutput, hne, Bool.false_eq_true, if_false]
    refine List.mem_append.mpr (Or.inr ?_)
    refine List.mem_cons_of_mem _ ?_
    refine List.mem_flatten.mpr ?_
    refine ⟨["## " ++ p, "```\n" ++ c.take 2000 ++ "\n```", ""], ?_, by simp⟩
    exact List.mem_map.mpr ⟨(p, c), hmem, rfl⟩

/-- C9 witness: the markdown cap applied at a concrete bundle. -/
theorem contextRender_amended_witness :
    ("```\n" ++ ("xy").take 2000 ++ "\n```")
      ∈ contextMarkdownOutput [] none none [("f", "xy")] :=
  contextRender_amended.2 [] none none [("f", "xy")] "f" "xy" (by decide)

/-! ## Toolkit lemmas for the parser development -/

theorem takeWhile_append_cons {α : Type} {p : α → Bool} {a : List α} {c : α}
    {b : List α} (ha : ∀ x ∈ a, p x = true) (hc : p c = false) :
    (a ++ c :: b).takeWhile p = a := by
  induction a with
  | nil => simp [List.takeWhile_cons, hc]
  | cons y ys ih =>
    have hy : p y = true := ha y (by simp)
    simp only [List.cons_append, List.takeWhile_cons, hy, if_true]
    exact congrArg (y :: ·) (ih (fun x hx => ha x (by simp [hx])))

theorem dropWhile_append_cons {α : Type} {p : α → Bool} {a : List α} {c : α}
    {b : List α} (ha : ∀ x ∈ a, p x = true) (hc : p c = false) :
    (a ++ c :: b).dropWhile p = c :: b := by
  induction a with
  | nil => simp [List.dropWhile_cons, hc]
  | cons y ys ih =>
    have hy : p y = true := ha y (by simp)
    simp only [List.cons_append, List.dropWhile_cons, hy, if_true]
    exact ih (fun x hx => ha x (by simp [hx]))

theorem takeWhile_eq_self_of_all {α : Type} {p : α → Bool} {a : List α}
    (ha : ∀ x ∈ a, p x = true) : a.takeWhile p = a := by
  induction a with
  | nil => rfl
  | cons y ys ih =>
    have hy : p y = true := ha y (by simp)
    simp only [List.takeWhile_cons, hy, if_true]
    exact congrArg (y :: ·) (ih (fun x hx => ha x (by simp [hx])))

theorem dropWhile_eq_nil_of_all {α : Type} {p : α → Bool} {a : List α}
    (ha : ∀ x ∈ a, p x = true) : a.dropWhile p = [] := by
  induction a with
  | nil => rfl
  | cons y ys ih =>
    have hy : p y = true := ha y (by simp)
    simp only [List.dropWhile_cons, hy, if_true]
    exact ih (fun x hx => ha x (by simp [hx]))

theorem dropLit_eq_some : ∀ {l s r : List Char}, dropLit l s = some r → s = l ++ r := by
  intro l
  induction l with
  | nil =>
    intro s r h
    simp [dropLit] at h
    simp [h]
  | cons c cs ih =>
    intro s r h
    cases s with
    | nil => simp [dropLit] at h
    | cons d ds =>
      by_cases hcd : c = d
      · subst hcd
        simp only [dropLit, if_pos rfl] at h
        simpa using congrArg (c :: ·) (ih h)
      · simp [dropLit, hcd] at h

theorem dropScheme_eq_some {s r : List Char} (h : dropScheme s = some r) :
    s = httpLit ++ schemeRestLit ++ r ∨ s = httpLit ++ sSchemeLit ++ r := by
  unfold dropScheme at h
  split at h
  · exact absurd h (by simp)
  · rename_i m h1
    split at h
    · rename_i m2 h2
      cases h
      right
      rw [dropLit_eq_some h1, dropLit_eq_some h2, List.append_assoc]
    · left
      rw [dropLit_eq_some h1, dropLit_eq_some h, List.append_assoc]

theorem dropScheme_http (r : List Char) :
    dropScheme (httpLit ++ schemeRestLit ++ r) = some r := rfl

theorem dropScheme_https (r : List Char) :
    dropScheme (httpLit ++ sSchemeLit ++ r) = some r := rfl

theorem all_isDigit_false_of_mem {l : List Char} {x : Char} (hx : x ∈ l)
    (hd : x.isDigit = false) : l.all Char.isDigit ≠ true := by
  intro h
  have := (List.all_eq_true.mp h) x hx
  rw [hd] at this
  exact Bool.false_ne_true this

theorem expectChar_eq_some {c : Char} {s r : List Char} (h : expectChar c s = some r) :
    s = c :: r := by
  cases s with
  | nil => simp [expectChar] at h
  | cons d ds =>
    by_cases hd : d = c
    · subst hd
      simp only [expectChar, if_pos rfl] at h
      cases h
      rfl
    · simp [expectChar, hd] at h

theorem guardNonempty_eq_some {l : List Char} {u : Unit}
    (h : guardNonempty l = some u) : l ≠ [] := by
  unfold guardNonempty at h
  split at h
  · simp at h
  · rename_i hl
    simpa using hl

theorem guardDigits_eq_some {l : List Char} {u : Unit} (h : guardDigits l = some u) :
    l ≠ [] ∧ l.all Char.isDigit = true := by
  unfold guardDigits at h
  split at h
  · rename_i hc
    rw [Bool.and_eq_true, Bool.not_eq_true'] at hc
    exact ⟨by simpa using hc.1, hc.2⟩
  · simp at h

theorem guardUpperDigits_eq_some {l : List Char} {u : Unit}
    (h : guardUpperDigits l = some u) :
    l ≠ [] ∧ ∀ c ∈ l, (c.isUpper || c.isDigit) = true := by
  unfold guardUpperDigits at h
  split at h
  · rename_i hc
    rw [Bool.and_eq_true, Bool.not_eq_true'] at hc
    exact ⟨by simpa using hc.1, List.all_eq_true.mp hc.2⟩
  · simp at h

theorem guardSentryHost_eq_some {host : List Char} {u : Unit}
    (h : guardSentryHost host = some u) : sentryIoLit.isSuffixOf host = true := by
  unfold guardSentryHost at h
  split at h
  · assumption
  · simp at h

theorem matchHashNum_inv {s : List Char} {n : String} (h : matchHashNum s = some n) :
    ∃ ds, s = '#' :: ds ∧ ds ≠ [] ∧ ds.all Char.isDigit = true ∧ n = String.mk ds := by
  unfold matchHashNum at h
  split at h
  · rename_i ds
    split at h
    · rename_i hcond
      cases h
      rw [Bool.and_eq_true, Bool.not_eq_true'] at hcond
      exact ⟨ds, rfl, by simpa using hcond.1, hcond.2, rfl⟩
    · exact absurd h (by simp)
  · exact absurd h (by simp)

theorem matchSentryNum_inv {s : List Char} {n : String} (h : matchSentryNum s = some n) :
    ∃ ds, s = sentryColonLit ++ ds ∧ ds ≠ [] ∧ ds.all Char.isDigit = true
      ∧ n = String.mk ds := by
  unfold matchSentryNum at h
  split at h
  · rename_i ds h1
    split at h
    · rename_i hcond
      cases h
      rw [Bool.and_eq_true, Bool.not_eq_true'] at hcond
      exact ⟨ds, dropLit_eq_some h1, by simpa using hcond.1, hcond.2, rfl⟩
    · exact absurd h (by simp)
  · exact absurd h (by simp)

theorem segChar_eq_true {c : Char} (h : segChar c = true) : c ≠ '/' ∧ c ≠ '#' := by
  simpa [segChar, decide_eq_true_eq] using h

theorem matchRepoHash_inv {s : List Char} {pr : String × String}
    (h : matchRepoHash s = some pr) :
    ∃ p1 p2 r4, s = p1 ++ '/' :: (p2 ++ '#' :: r4)
      ∧ r4 ≠ [] ∧ r4.all Char.isDigit = true := by
  simp only [matchRepoHash, Option.bind_eq_some] at h
  obtain ⟨u1, hg1, r2, he1, u2, hg2, r4, he2, u3, hg3, hsome⟩ := h
  have h1 : s = s.takeWhile (fun c => decide (c ≠ '/')) ++ '/' :: r2 := by
    conv_lhs => rw [← List.takeWhile_append_dropWhile
      (p := fun c => decide (c ≠ '/')) (l := s)]
    rw [expectChar_eq_some he1]
  have h2 : r2 = r2.takeWhile (fun c => decide (c ≠ '#')) ++ '#' :: r4 := by
    conv_lhs => rw [← List.takeWhile_append_dropWhile
      (p := fun c => decide (c ≠ '#')) (l := r2)]
    rw [expectChar_eq_some he2]
  obtain ⟨hne, hdig⟩ := guardDigits_eq_some hg3
  refine ⟨s.takeWhile (fun c => decide (c ≠ '/')),
          r2.takeWhile (fun c => decide (c ≠ '#')), r4, ?_, hne, hdig⟩
  rw [← h2]
  exact h1

theorem gramRepoHash_inv {s : List Char} {pr : String × String}
    (h : gramRepoHash s = some pr) :
    ∃ o rp ds, s = o ++ '/' :: (rp ++ '#' :: ds)
      ∧ o ≠ [] ∧ (∀ c ∈ o, c ≠ '/' ∧ c ≠ '#')
      ∧ rp ≠ [] ∧ (∀ c ∈ rp, c ≠ '/' ∧ c ≠ '#')
      ∧ ds ≠ [] ∧ ds.all Char.isDigit = true
      ∧ pr = (String.mk (o ++ '/' :: rp), String.mk ds) := by
  simp only [gramRepoHash, Option.bind_eq_some] at h
  obtain ⟨u1, hg1, r2, he1, u2, hg2, r4, he2, u3, hg3, hsome⟩ := h
  have h1 : s = s.takeWhile segChar ++ '/' :: r2 := by
    conv_lhs => rw [← List.takeWhile_append_dropWhile (p := segChar) (l := s)]
    rw [expectChar_eq_some he1]
  have h2 : r2 = r2.takeWhile segChar ++ '#' :: r4 := by
    conv_lhs => rw [← List.takeWhile_append_dropWhile (p := segChar) (l := r2)]
    rw [expectChar_eq_some he2]
  obtain ⟨hne, hdig⟩ := guardDigits_eq_some hg3
  refine ⟨s.takeWhile segChar, r2.takeWhile segChar, r4, ?_,
          guardNonempty_eq_some hg1,
          fun c hc => segChar_eq_true (List.mem_takeWhile_imp hc),
          guardNonempty_eq_some hg2,
          fun c hc => segChar_eq_true (List.mem_takeWhile_imp hc),
          hne, hdig, ?_⟩
  · rw [← h2]
    exact h1
  · cases hsome
    rfl

theorem matchLinearKey_inv {s : List Char} {k : String} (h : matchLinearKey s = some k) :
    ∃ ups r2, s = ups ++ '-' :: r2
      ∧ ups ≠ [] ∧ (∀ c ∈ ups, c.isUpper = true)
      ∧ r2 ≠ [] ∧ (∀ c ∈ r2, (c.isUpper || c.isDigit) = true)
      ∧ k = String.mk (ups ++ '-' :: r2) := by
  simp only [matchLinearKey, Option.bind_eq_some] at h
  obtain ⟨u1, hg1, r2, he1, u2, hg2, hsome⟩ := h
  have h1 : s = s.takeWhile Char.isUpper ++ '-' :: r2 := by
    conv_lhs => rw [← List.takeWhile_append_dropWhile (p := Char.isUpper) (l := s)]
    rw [expectChar_eq_some he1]
  obtain ⟨hne, hval⟩ := guardUpperDigits_eq_some hg2
  refine ⟨s.takeWhile Char.isUpper, r2, h1,
          guardNonempty_eq_some hg1,
          fun c hc => List.mem_takeWhile_imp hc,
          hne, hval, ?_⟩
  cases hsome
  rfl

theorem scanLinearUrl_inv {s : List Char} {k : String} {rest : List Char}
    (h : scanLinearUrl s = some (k, rest)) :
    ∃ b team ups tl,
      (s = httpLit ++ schemeRestLit ++ b ∨ s = httpLit ++ sSchemeLit ++ b)
      ∧ b = linearLit ++ (team ++ '/' :: (issueLit ++ (ups ++ '-' :: (tl ++ rest))))
      ∧ team ≠ [] ∧ (∀ c ∈ team, ¬c = '/')
      ∧ ups ≠ [] ∧ (∀ c ∈ ups, c.isUpper = true)
      ∧ tl ≠ [] ∧ (∀ c ∈ tl, (c.isUpper || c.isDigit) = true)
      ∧ k = String.mk (ups ++ '-' :: tl) := by
  simp only [scanLinearUrl, Option.bind_eq_some] at h
  obtain ⟨r, hr, r1, hr1, u1, hg1, r2, he1, r3, hr3, u2, hg2, r5, he2, u3, hg3, hsome⟩ := h
  have hteam : r1 = r1.takeWhile (fun c => decide (c ≠ '/')) ++ '/' :: r2 := by
    conv_lhs => rw [← List.takeWhile_append_dropWhile
      (p := fun c => decide (c ≠ '/')) (l := r1)]
    rw [expectChar_eq_some he1]
  have hups : r3 = r3.takeWhile Char.isUpper ++ '-' :: r5 := by
    conv_lhs => rw [← List.takeWhile_append_dropWhile (p := Char.isUpper) (l := r3)]
    rw [expectChar_eq_some he2]
  have hrest : rest = r5.dropWhile (fun c => c.isUpper || c.isDigit) := by
    cases hsome
    rfl
  have hk : k = String.mk (r3.takeWhile Char.isUpper
      ++ '-' :: r5.takeWhile (fun c => c.isUpper || c.isDigit)) := by
    cases hsome
    rfl
  have htl : r5 = r5.takeWhile (fun c => c.isUpper || c.isDigit) ++ rest := by
    rw [hrest]
    exact (List.takeWhile_append_dropWhile
      (p := fun c => c.isUpper || c.isDigit) (l := r5)).symm
  refine ⟨r, r1.takeWhile (fun c => decide (c ≠ '/')), r3.takeWhile Char.isUpper,
          r5.takeWhile (fun c => c.isUpper || c.isDigit), dropScheme_eq_some hr, ?_,
          guardNonempty_eq_some hg1, ?_,
          guardNonempty_eq_some hg2, ?_,
          guardNonempty_eq_some hg3, ?_, hk⟩
  · rw [← htl, ← hups, ← dropLit_eq_some hr3, ← hteam]
    exact dropLit_eq_some hr1
  · intro c hc
    simpa using List.mem_takeWhile_imp hc
  · intro c hc
    simpa using List.mem_takeWhile_imp hc
  · intro c hc
    simpa using List.mem_takeWhile_imp hc

theorem scanSentryUrl_inv {s : List Char} {n : String} {rest : List Char}
    (h : scanSentryUrl s = some (n, rest)) :
    ∃ b host ds,
      (s = httpLit ++ schemeRestLit ++ b ∨ s = httpLit ++ sSchemeLit ++ b)
      ∧ b = host ++ (slashIssuesLit ++ (ds ++ rest))
      ∧ (∀ c ∈ host, ¬c = '/')
      ∧ sentryIoLit.isSuffixOf host = true
      ∧ ds ≠ [] ∧ (∀ c ∈ ds, c.isDigit = true)
      ∧ n = String.mk ds := by
  simp only [scanSentryUrl, Option.bind_eq_some] at h
  obtain ⟨r, hr, u1, hg1, r2, hr2, u2, hg2, hsome⟩ := h
  have hrest : rest = r2.dropWhile Char.isDigit := by
    cases hsome
    rfl
  have hn : n = String.mk (r2.takeWhile Char.isDigit) := by
    cases hsome
    rfl
  have hds : r2 = r2.takeWhile Char.isDigit ++ rest := by
    rw [hrest]
    exact (List.takeWhile_append_dropWhile (p := Char.isDigit) (l := r2)).symm
  refine ⟨r, r.takeWhile (fun c => decide (c ≠ '/')), r2.takeWhile Char.isDigit,
          dropScheme_eq_some hr, ?_, ?_,
          guardSentryHost_eq_some hg1,
          guardNonempty_eq_some hg2, ?_, hn⟩
  · rw [← hds, ← dropLit_eq_some hr2]
    exact (List.takeWhile_append_dropWhile (p := fun c => decide (c ≠ '/')) (l := r)).symm
  · intro c hc
    simpa using List.mem_takeWhile_imp hc
  · intro c hc
    simpa using List.mem_takeWhile_imp hc

theorem all_eq_true_of_digits {ds : List Char} (h : ds.all Char.isDigit = true) :
    ∀ c ∈ ds, c.isDigit = true :=
  List.all_eq_true.mp h

theorem pred_ne_of_true_of_false {p : Char → Bool} {c d : Char}
    (h : p c = true) (hd : p d = false) : c ≠ d := by
  intro he
  rw [he, hd] at h
  exact Bool.false_ne_true h

theorem gramGithubUrl_sound {s : List Char} {p : String × String}
    (h : gramGithubUrl s = some p) : matchGithubUrl s = some p := by
  simp only [gramGithubUrl, Option.bind_eq_some] at h
  obtain ⟨q, hq, hif⟩ := h
  split at hif
  · cases hif
    simp [matchGithubUrl, hq]
  · exact absurd hif (by simp)

theorem gramLinearUrl_inv {s : List Char} {k : String}
    (h : gramLinearUrl s = some k) : scanLinearUrl s = some (k, []) := by
  simp only [gramLinearUrl, Option.bind_eq_some] at h
  obtain ⟨⟨k1, rest⟩, hp, hif⟩ := h
  split at hif
  · rename_i hrest
    cases hif
    have : rest = [] := by simpa using hrest
    rw [hp, this]
  · exact absurd hif (by simp)

theorem gramSentryUrl_inv {s : List Char} {n : String}
    (h : gramSentryUrl s = some n) : scanSentryUrl s = some (n, []) := by
  simp only [gramSentryUrl, Option.bind_eq_some] at h
  obtain ⟨⟨n1, rest⟩, hp, hif⟩ := h
  split at hif
  · rename_i hrest
    cases hif
    have : rest = [] := by simpa using hrest
    rw [hp, this]
  · exact absurd hif (by simp)

theorem matchRepoHash_of_parts {o rp ds : List Char}
    (ho : o ≠ []) (ho2 : ∀ c ∈ o, c ≠ '/') (hrp : rp ≠ []) (hrp2 : ∀ c ∈ rp, c ≠ '#')
    (hds : ds ≠ []) (hdig : ds.all Char.isDigit = true) :
    matchRepoHash (o ++ '/' :: (rp ++ '#' :: ds))
      = some (String.mk (o ++ '/' :: rp), String.mk ds) := by
  have ht1 : (o ++ '/' :: (rp ++ '#' :: ds)).takeWhile (fun c => decide (c ≠ '/')) = o :=
    takeWhile_append_cons (fun x hx => decide_eq_true (ho2 x hx)) (by simp)
  have hd1 : (o ++ '/' :: (rp ++ '#' :: ds)).dropWhile (fun c => decide (c ≠ '/'))
      = '/' :: (rp ++ '#' :: ds) :=
    dropWhile_append_cons (fun x hx => decide_eq_true (ho2 x hx)) (by simp)
  have ht2 : (rp ++ '#' :: ds).takeWhile (fun c => decide (c ≠ '#')) = rp :=
    takeWhile_append_cons (fun x hx => decide_eq_true (hrp2 x hx)) (by simp)
  have hd2 : (rp ++ '#' :: ds).dropWhile (fun c => decide (c ≠ '#')) = '#' :: ds :=
    dropWhile_append_cons (fun x hx => decide_eq_true (hrp2 x hx)) (by simp)
  have hg1 : guardNonempty o = some () := by simp [guardNonempty, ho]
  have hg2 : guardNonempty rp = some () := by simp [guardNonempty, hrp]
  have hgd : guardDigits ds = some () := by simp [guardDigits, hds, hdig]
  unfold matchRepoHash
  rw [ht1, hd1, hg1]
  simp only [Option.some_bind]
  rw [show expectChar '/' ('/' :: (rp ++ '#' :: ds)) = some (rp ++ '#' :: ds) from rfl]
  simp only [Option.some_bind]
  rw [ht2, hd2, hg2]
  simp only [Option.some_bind]
  rw [show expectChar '#' ('#' :: ds) = some ds from rfl]
  simp only [Option.some_bind]
  rw [hgd]
  simp only [Option.some_bind]

/-! Failure of the earlier source rules on tokens of the later grammar
rules.  Most are by computation on the concrete literal prefixes. -/

theorem matchGithubUrl_hash (ds : List Char) : matchGithubUrl ('#' :: ds) = none := rfl

theorem matchGithubUrl_sentryColon (ds : List Char) :
    matchGithubUrl (sentryColonLit ++ ds) = none := rfl

theorem matchLinearUrl_sentryColon (ds : List Char) :
    matchLinearUrl (sentryColonLit ++ ds) = none := rfl

theorem matchSentryUrl_sentryColon (ds : List Char) :
    matchSentryUrl (sentryColonLit ++ ds) = none := rfl

theorem matchHashNum_sentryColon (ds : List Char) :
    matchHashNum (sentryColonLit ++ ds) = none := rfl

theorem matchLinearKey_sentryColon (ds : List Char) :
    matchLinearKey (sentryColonLit ++ ds) = none := rfl

theorem matchGithubUrl_linearBody (b : List Char) :
    matchGithubUrl (httpLit ++ schemeRestLit ++ (linearLit ++ b)) = none
    ∧ matchGithubUrl (httpLit ++ sSchemeLit ++ (linearLit ++ b)) = none :=
  ⟨rfl, rfl⟩

theorem matchHashNum_scheme (b : List Char) :
    matchHashNum (httpLit ++ schemeRestLit ++ b) = none
    ∧ matchHashNum (httpLit ++ sSchemeLit ++ b) = none :=
  ⟨rfl, rfl⟩

theorem matchLinearKey_scheme (b : List Char) :
    matchLinearKey (httpLit ++ schemeRestLit ++ b) = none
    ∧ matchLinearKey (httpLit ++ sSchemeLit ++ b) = none :=
  ⟨rfl, rfl⟩

theorem matchHashNum_ne {c : Char} {t : List Char} (hc : c ≠ '#') :
    matchHashNum (c :: t) = none := by
  unfold matchHashNum
  split
  · rename_i ds heq
    injection heq with h1 h2
    exact absurd h1 hc
  · rfl

theorem matchGithubUrl_upper {c : Char} {t : List Char} (hc : c.isUpper = true) :
    matchGithubUrl (c :: t) = none := by
  have hne : ('h' : Char) ≠ c := by
    intro he
    rw [← he] at hc
    exact absurd hc (by decide)
  simp [matchGithubUrl, scanGithubUrl, dropScheme, httpLit, dropLit, hne]

theorem matchLinearUrl_upper {c : Char} {t : List Char} (hc : c.isUpper = true) :
    matchLinearUrl (c :: t) = none := by
  have hne : ('h' : Char) ≠ c := by
    intro he
    rw [← he] at hc
    exact absurd hc (by decide)
  simp [matchLinearUrl, scanLinearUrl, dropScheme, httpLit, dropLit, hne]

theorem matchRepoHash_no_slash {s : List Char} (h : ∀ c ∈ s, c ≠ '/') :
    matchRepoHash s = none := by
  cases hm : matchRepoHash s with
  | none => rfl
  | some pr =>
    obtain ⟨p1, p2, r4, hs, _, _⟩ := matchRepoHash_inv hm
    have hmem : '/' ∈ s := by
      rw [hs]
      simp
    exact absurd rfl (h '/' hmem)

theorem hash_split_contra {F tl a b : List Char} {c : Char}
    (hs : F ++ c :: tl = a ++ '#' :: b)
    (_hbne : b ≠ []) (hb : b.all Char.isDigit = true)
    (hc1 : c ≠ '#') (hc2 : c.isDigit = false)
    (htl : ∀ x ∈ tl, x ≠ '#') : False := by
  have hsuf1 : ('#' :: b) <:+ (F ++ c :: tl) := ⟨a, hs.symm⟩
  have hsuf2 : (c :: tl) <:+ (F ++ c :: tl) := ⟨F, rfl⟩
  rcases List.suffix_or_suffix_of_suffix hsuf1 hsuf2 with h | h
  · rcases List.suffix_cons_iff.mp h with he | h2
    · injection he with h1 _
      exact hc1 h1.symm
    · exact htl '#' (h2.subset (List.mem_cons_self _ _)) rfl
  · rcases List.suffix_cons_iff.mp h with he | h2
    · injection he with h1 _
      exact hc1 h1
    · have hcb : c ∈ b := h2.subset (List.mem_cons_self _ _)
      have := List.all_eq_true.mp hb c hcb
      rw [hc2] at this
      exact Bool.false_ne_true this

theorem matchRepoHash_none_of_no_hash_digits {F tl : List Char} {c : Char}
    (hc1 : c ≠ '#') (hc2 : c.isDigit = false) (htl : ∀ x ∈ tl, x ≠ '#') :
    matchRepoHash (F ++ c :: tl) = none := by
  cases hm : matchRepoHash (F ++ c :: tl) with
  | none => rfl
  | some pr =>
    obtain ⟨p1, p2, r4, hs, hne, hdig⟩ := matchRepoHash_inv hm
    have hs2 : F ++ c :: tl = (p1 ++ '/' :: p2) ++ '#' :: r4 := by
      rw [hs]
      simp
    exact absurd (hash_split_contra hs2 hne hdig hc1 hc2 htl) (fun f => f)

theorem host_eq_of_slash_split {L0 host T r1 : List Char}
    (hL0 : ∀ x ∈ L0, decide (x ≠ '/') = true) (hhost : ∀ c ∈ host, ¬c = '/')
    (heq : host ++ '/' :: T = L0 ++ '/' :: r1) : host = L0 := by
  have h1 : (host ++ '/' :: T).takeWhile (fun c => decide (c ≠ '/')) = host :=
    takeWhile_append_cons (fun x hx => decide_eq_true (hhost x hx)) (by simp)
  have h2 : (L0 ++ '/' :: r1).takeWhile (fun c => decide (c ≠ '/')) = L0 :=
    takeWhile_append_cons hL0 (by simp)
  rw [← h1, heq, h2]

theorem matchGithubUrl_some_elim {s : List Char} {q : String × String}
    (hm : matchGithubUrl s = some q) :
    ∃ rem r1, dropScheme s = some rem ∧ dropLit githubLit rem = some r1 := by
  have hscan : ∃ p, scanGithubUrl s = some p := by
    cases hsc : scanGithubUrl s with
    | none =>
      unfold matchGithubUrl at hm
      rw [hsc] at hm
      simp at hm
    | some p => exact ⟨p, rfl⟩
  obtain ⟨p, hp⟩ := hscan
  simp only [scanGithubUrl, Option.bind_eq_some] at hp
  obtain ⟨rem, hrem, r1, hr1, -⟩ := hp
  exact ⟨rem, r1, hrem, hr1⟩

theorem matchLinearUrl_some_elim {s : List Char} {q : String}
    (hm : matchLinearUrl s = some q) :
    ∃ rem r1, dropScheme s = some rem ∧ dropLit linearLit rem = some r1 := by
  have hscan : ∃ p, scanLinearUrl s = some p := by
    cases hsc : scanLinearUrl s with
    | none =>
      unfold matchLinearUrl at hm
      rw [hsc] at hm
      simp at hm
    | some p => exact ⟨p, rfl⟩
  obtain ⟨p, hp⟩ := hscan
  simp only [scanLinearUrl, Option.bind_eq_some] at hp
  obtain ⟨rem, hrem, r1, hr1, -⟩ := hp
  exact ⟨rem, r1, hrem, hr1⟩

theorem matchGithubUrl_none_of_repoHash {o rp ds : List Char}
    (ho2 : ∀ c ∈ o, c ≠ '/' ∧ c ≠ '#') (hrp : rp ≠ [])
    (hrp2 : ∀ c ∈ rp, c ≠ '/' ∧ c ≠ '#') :
    matchGithubUrl (o ++ '/' :: (rp ++ '#' :: ds)) = none := by
  cases hm : matchGithubUrl (o ++ '/' :: (rp ++ '#' :: ds)) with
  | none => rfl
  | some q =>
    obtain ⟨rem, r1, hrem, -⟩ := matchGithubUrl_some_elim hm
    have hw1 : (o ++ '/' :: (rp ++ '#' :: ds)).takeWhile (fun c => decide (c ≠ '/')) = o :=
      takeWhile_append_cons (fun x hx => decide_eq_true (ho2 x hx).1) (by simp)
    rcases dropScheme_eq_some hrem with hcase | hcase
    · have hw2 : (httpLit ++ schemeRestLit ++ rem).takeWhile (fun c => decide (c ≠ '/'))
          = ['h', 't', 't', 'p', ':'] := by
        simp [httpLit, schemeRestLit, List.takeWhile_cons]
      have ho_eq : o = ['h', 't', 't', 'p', ':'] := by
        rw [← hw1, hcase, hw2]
      have htail : rp ++ '#' :: ds = '/' :: rem := by
        have h1 := hcase
        rw [ho_eq] at h1
        simpa [httpLit, schemeRestLit] using h1
      cases rp with
      | nil => exact absurd rfl hrp
      | cons c rp2 =>
        have hc : c = '/' := by
          simpa using congrArg (fun l => l.head?) htail
        exact absurd hc (hrp2 c (by simp)).1
    · have hw2 : (httpLit ++ sSchemeLit ++ rem).takeWhile (fun c => decide (c ≠ '/'))
          = ['h', 't', 't', 'p', 's', ':'] := by
        simp [httpLit, sSchemeLit, List.takeWhile_cons]
      have ho_eq : o = ['h', 't', 't', 'p', 's', ':'] := by
        rw [← hw1, hcase, hw2]
      have htail : rp ++ '#' :: ds = '/' :: rem := by
        have h1 := hcase
        rw [ho_eq] at h1
        simpa [httpLit, sSchemeLit] using h1
      cases rp with
      | nil => exact absurd rfl hrp
      | cons c rp2 =>
        have hc : c = '/' := by
          simpa using congrArg (fun l => l.head?) htail
        exact absurd hc (hrp2 c (by simp)).1

theorem dropLit_githubLit_none_of_host {host X rem : List Char}
    (hhost : ∀ c ∈ host, ¬c = '/') (hsfx : sentryIoLit.isSuffixOf host = true)
    (hremEq : rem = host ++ (slashIssuesLit ++ X)) :
    dropLit githubLit rem = none := by
  cases hdl : dropLit githubLit rem with
  | none => rfl
  | some r1 =>
    have h2 : host ++ '/' :: (['i', 's', 's', 'u', 'e', 's', '/'] ++ X)
        = ['g', 'i', 't', 'h', 'u', 'b', '.', 'c', 'o', 'm'] ++ '/' :: r1 := by
      calc host ++ '/' :: (['i', 's', 's', 'u', 'e', 's', '/'] ++ X)
          = rem := by rw [hremEq]; simp [slashIssuesLit]
        _ = githubLit ++ r1 := dropLit_eq_some hdl
        _ = ['g', 'i', 't', 'h', 'u', 'b', '.', 'c', 'o', 'm'] ++ '/' :: r1 := by
            simp [githubLit]
    have hhosteq : host = ['g', 'i', 't', 'h', 'u', 'b', '.', 'c', 'o', 'm'] :=
      host_eq_of_slash_split (by decide) hhost h2
    rw [hhosteq] at hsfx
    exact absurd hsfx (by decide)

theorem dropLit_linearLit_none_of_host {host X rem : List Char}
    (hhost : ∀ c ∈ host, ¬c = '/') (hsfx : sentryIoLit.isSuffixOf host = true)
    (hremEq : rem = host ++ (slashIssuesLit ++ X)) :
    dropLit linearLit rem = none := by
  cases hdl : dropLit linearLit rem with
  | none => rfl
  | some r1 =>
    have h2 : host ++ '/' :: (['i', 's', 's', 'u', 'e', 's', '/'] ++ X)
        = ['l', 'i', 'n', 'e', 'a', 'r', '.', 'a', 'p', 'p'] ++ '/' :: r1 := by
      calc host ++ '/' :: (['i', 's', 's', 'u', 'e', 's', '/'] ++ X)
          = rem := by rw [hremEq]; simp [slashIssuesLit]
        _ = linearLit ++ r1 := dropLit_eq_some hdl
        _ = ['l', 'i', 'n', 'e', 'a', 'r', '.', 'a', 'p', 'p'] ++ '/' :: r1 := by
            simp [linearLit]
    have hhosteq : host = ['l', 'i', 'n', 'e', 'a', 'r', '.', 'a', 'p', 'p'] :=
      host_eq_of_slash_split (by decide) hhost h2
    rw [hhosteq] at hsfx
    exact absurd hsfx (by decide)

theorem matchGithubUrl_none_of_host {host X : List Char}
    (hhost : ∀ c ∈ host, ¬c = '/') (hsfx : sentryIoLit.isSuffixOf host = true) :
    matchGithubUrl (httpLit ++ schemeRestLit ++ (host ++ (slashIssuesLit ++ X))) = none
    ∧ matchGithubUrl (httpLit ++ sSchemeLit ++ (host ++ (slashIssuesLit ++ X))) = none := by
  constructor
  · cases hm : matchGithubUrl (httpLit ++ schemeRestLit
        ++ (host ++ (slashIssuesLit ++ X))) with
    | none => rfl
    | some q =>
      obtain ⟨rem, r1, hrem, hr1⟩ := matchGithubUrl_some_elim hm
      have hremv : host ++ (slashIssuesLit ++ X) = rem :=
        Option.some.inj ((dropScheme_http (host ++ (slashIssuesLit ++ X))).symm.trans hrem)
      rw [dropLit_githubLit_none_of_host hhost hsfx hremv.symm] at hr1
      exact absurd hr1 (by simp)
  · cases hm : matchGithubUrl (httpLit ++ sSchemeLit
        ++ (host ++ (slashIssuesLit ++ X))) with
    | none => rfl
    | some q =>
      obtain ⟨rem, r1, hrem, hr1⟩ := matchGithubUrl_some_elim hm
      have hremv : host ++ (slashIssuesLit ++ X) = rem :=
        Option.some.inj ((dropScheme_https (host ++ (slashIssuesLit ++ X))).symm.trans hrem)
      rw [dropLit_githubLit_none_of_host hhost hsfx hremv.symm] at hr1
      exact absurd hr1 (by simp)

theorem matchLinearUrl_none_of_host {host X : List Char}
    (hhost : ∀ c ∈ host, ¬c = '/') (hsfx : sentryIoLit.isSuffixOf host = true) :
    matchLinearUrl (httpLit ++ schemeRestLit ++ (host ++ (slashIssuesLit ++ X))) = none
    ∧ matchLinearUrl (httpLit ++ sSchemeLit ++ (host ++ (slashIssuesLit ++ X))) = none := by
  constructor
  · cases hm : matchLinearUrl (httpLit ++ schemeRestLit
        ++ (host ++ (slashIssuesLit ++ X))) with
    | none => rfl
    | some q =>
      obtain ⟨rem, r1, hrem, hr1⟩ := matchLinearUrl_some_elim hm
      have hremv : host ++ (slashIssuesLit ++ X) = rem :=
        Option.some.inj ((dropScheme_http (host ++ (slashIssuesLit ++ X))).symm.trans hrem)
      rw [dropLit_linearLit_none_of_host hhost hsfx hremv.symm] at hr1
      exact absurd hr1 (by simp)
  · cases hm : matchLinearUrl (httpLit ++ sSchemeLit
        ++ (host ++ (slashIssuesLit ++ X))) with
    | none => rfl
    | some q =>
      obtain ⟨rem, r1, hrem, hr1⟩ := matchLinearUrl_some_elim hm
      have hremv : host ++ (slashIssuesLit ++ X) = rem :=
        Option.some.inj ((dropScheme_https (host ++ (slashIssuesLit ++ X))).symm.trans hrem)
      rw [dropLit_linearLit_none_of_host hhost hsfx hremv.symm] at hr1
      exact absurd hr1 (by simp)

theorem specGrammarParse_sound {s : List Char} {r : IssueRef}
    (h : specGrammarParse s = some r) : parseIssueRef s = some r := by
  unfold specGrammarParse at h
  cases h1 : gramGithubUrl s with
  | some p =>
    simp only [h1] at h
    cases h
    simp only [parseIssueRef, gramGithubUrl_sound h1]
  | none =>
  simp only [h1] at h
  cases h2 : gramRepoHash s with
  | some p =>
    simp only [h2] at h
    cases h
    obtain ⟨o, rp, ds, hs, ho, ho2, hrp, hrp2, hds, hdig, hp⟩ := gramRepoHash_inv h2
    have k1 : matchGithubUrl s = none := by
      rw [hs]
      exact matchGithubUrl_none_of_repoHash ho2 hrp hrp2
    have p2 : matchRepoHash s = some p := by
      rw [hs, hp]
      exact matchRepoHash_of_parts ho (fun c hc => (ho2 c hc).1) hrp
        (fun c hc => (hrp2 c hc).2) hds hdig
    simp only [parseIssueRef, k1, p2]
  | none =>
  simp only [h2] at h
  cases h3 : matchHashNum s with
  | some n =>
    simp only [h3] at h
    cases h
    obtain ⟨ds, hs, hds, hdig, hn⟩ := matchHashNum_inv h3
    have k1 : matchGithubUrl s = none := by
      rw [hs]
      exact matchGithubUrl_hash ds
    have k2 : matchRepoHash s = none := by
      rw [hs]
      apply matchRepoHash_no_slash
      intro c hc
      rcases List.mem_cons.mp hc with hc | hc
      · rw [hc]
        decide
      · exact pred_ne_of_true_of_false (List.all_eq_true.mp hdig c hc) (by decide)
    simp only [parseIssueRef, k1, k2, h3]
  | none =>
  simp only [h3] at h
  cases h4 : gramLinearUrl s with
  | some k =>
    simp only [h4] at h
    cases h
    have hscan := gramLinearUrl_inv h4
    obtain ⟨b, team, ups, tl, hsch, hb, hteam, hteam2, hups, hups2, htl, htl2, hk⟩ :=
      scanLinearUrl_inv hscan
    have k1 : matchGithubUrl s = none := by
      rcases hsch with hs | hs <;> rw [hs, hb]
      · exact (matchGithubUrl_linearBody _).1
      · exact (matchGithubUrl_linearBody _).2
    have k2 : matchRepoHash s = none := by
      rcases hsch with hs | hs
      · have hsF : s = (httpLit ++ schemeRestLit ++ linearLit ++ team
            ++ '/' :: issueLit ++ ups) ++ '-' :: tl := by
          rw [hs, hb]
          simp
        rw [hsF]
        exact matchRepoHash_none_of_no_hash_digits (by decide) (by decide)
          (fun x hx => pred_ne_of_true_of_false
            (p := fun c => c.isUpper || c.isDigit) (htl2 x hx) (by decide))
      · have hsF : s = (httpLit ++ sSchemeLit ++ linearLit ++ team
            ++ '/' :: issueLit ++ ups) ++ '-' :: tl := by
          rw [hs, hb]
          simp
        rw [hsF]
        exact matchRepoHash_none_of_no_hash_digits (by decide) (by decide)
          (fun x hx => pred_ne_of_true_of_false
            (p := fun c => c.isUpper || c.isDigit) (htl2 x hx) (by decide))
    have k3 : matchHashNum s = none := by
      rcases hsch with hs | hs <;> rw [hs]
      · exact (matchHashNum_scheme _).1
      · exact (matchHashNum_scheme _).2
    have p4 : matchLinearUrl s = some k := by
      simp [matchLinearUrl, hscan]
    simp only [parseIssueRef, k1, k2, k3, p4]
  | none =>
  simp only [h4] at h
  cases h5 : matchLinearKey s with
  | some k =>
    simp only [h5] at h
    cases h
    obtain ⟨ups, r2, hs, hups, hups2, hr2, hr22, hk⟩ := matchLinearKey_inv h5
    cases ups with
    | nil => exact absurd rfl hups
    | cons u ups2 =>
      have hu : u.isUpper = true := hups2 u (by simp)
      have k1 : matchGithubUrl s = none := by
        rw [hs, List.cons_append]
        exact matchGithubUrl_upper hu
      have k2 : matchRepoHash s = none := by
        rw [hs]
        apply matchRepoHash_no_slash
        intro c hc
        rcases List.mem_append.mp hc with hc | hc
        · exact pred_ne_of_true_of_false (hups2 c hc) (by decide)
        · rcases List.mem_cons.mp hc with hc | hc
          · rw [hc]
            decide
          · exact pred_ne_of_true_of_false
              (p := fun c => c.isUpper || c.isDigit) (hr22 c hc) (by decide)
      have k3 : matchHashNum s = none := by
        rw [hs, List.cons_append]
        exact matchHashNum_ne (pred_ne_of_true_of_false hu (by decide))
      have k4 : matchLinearUrl s = none := by
        rw [hs, List.cons_append]
        exact matchLinearUrl_upper hu
      simp only [parseIssueRef, k1, k2, k3, k4, h5]
  | none =>
  simp only [h5] at h
  cases h6 : gramSentryUrl s with
  | some n =>
    simp only [h6] at h
    cases h
    have hscan := gramSentryUrl_inv h6
    obtain ⟨b, host, ds, hsch, hb, hhost, hsfx, hds, hds2, hn⟩ := scanSentryUrl_inv hscan
    have k1 : matchGithubUrl s = none := by
      rcases hsch with hs | hs <;> rw [hs, hb]
      · exact (matchGithubUrl_none_of_host hhost hsfx).1
      · exact (matchGithubUrl_none_of_host hhost hsfx).2
    have k2 : matchRepoHash s = none := by
      rcases hsch with hs | hs
      · have hsF : s = (httpLit ++ schemeRestLit ++ host
            ++ ['/', 'i', 's', 's', 'u', 'e', 's']) ++ '/' :: ds := by
          rw [hs, hb]
          simp [slashIssuesLit]
        rw [hsF]
        exact matchRepoHash_none_of_no_hash_digits (by decide) (by decide)
          (fun x hx => pred_ne_of_true_of_false (hds2 x hx) (by decide))
      · have hsF : s = (httpLit ++ sSchemeLit ++ host
            ++ ['/', 'i', 's', 's', 'u', 'e', 's']) ++ '/' :: ds := by
          rw [hs, hb]
          simp [slashIssuesLit]
        rw [hsF]
        exact matchRepoHash_none_of_no_hash_digits (by decide) (by decide)
          (fun x hx => pred_ne_of_true_of_false (hds2 x hx) (by decide))
    have k3 : matchHashNum s = none := by
      rcases hsch with hs | hs <;> rw [hs]
      · exact (matchHashNum_scheme _).1
      · exact (matchHashNum_scheme _).2
    have k4 : matchLinearUrl s = none := by
      rcases hsch with hs | hs <;> rw [hs, hb]
      · exact (matchLinearUrl_none_of_host hhost hsfx).1
      · exact (matchLinearUrl_none_of_host hhost hsfx).2
    have k5 : matchLinearKey s = none := by
      rcases hsch with hs | hs <;> rw [hs]
      · exact (matchLinearKey_scheme _).1
      · exact (matchLinearKey_scheme _).2
    have p6 : matchSentryUrl s = some n := by
      simp [matchSentryUrl, hscan]
    simp only [parseIssueRef, k1, k2, k3, k4, k5, p6]
  | none =>
  simp only [h6] at h
  cases h7 : matchSentryNum s with
  | some n =>
    simp only [h7] at h
    cases h
    obtain ⟨ds, hs, hds, hdig, hn⟩ := matchSentryNum_inv h7
    have k1 : matchGithubUrl s = none := by
      rw [hs]
      exact matchGithubUrl_sentryColon ds
    have k2 : matchRepoHash s = none := by
      rw [hs]
      apply matchRepoHash_no_slash
      intro c hc
      rcases List.mem_append.mp hc with hc | hc
      · simp only [sentryColonLit, List.mem_cons, List.not_mem_nil, or_false] at hc
        rcases hc with rfl | rfl | rfl | rfl | rfl | rfl | rfl <;> decide
      · exact pred_ne_of_true_of_false (List.all_eq_true.mp hdig c hc) (by decide)
    have k3 : matchHashNum s = none := by
      rw [hs]
      exact matchHashNum_sentryColon ds
    have k4 : matchLinearUrl s = none := by
      rw [hs]
      exact matchLinearUrl_sentryColon ds
    have k5 : matchLinearKey s = none := by
      rw [hs]
      exact matchLinearKey_sentryColon ds
    have k6 : matchSentryUrl s = none := by
      rw [hs]
      exact matchSentryUrl_sentryColon ds
    simp only [parseIssueRef, k1, k2, k3, k4, k5, k6, h7]
  | none =>
    simp only [h7] at h
    exact absurd h (by simp)

/-- C1 counterexample: the token `https://github.com/a/b/issues/12xyz`
is outside the §4.1 grammar (the issue number is followed by trailing
text, so no grammar rule matches the whole token), yet `parseIssueRef`
accepts it — `re.match` only anchors at the start, so rule 1 matches a
prefix and returns GitHub issue `12` in repo `a/b` instead of the
claimed `None`. -/
theorem parseIssueRef_outside_grammar_accepted :
    parseIssueRef "https://github.com/a/b/issues/12xyz".toList
      = some ⟨.github, "12", some "a/b"⟩
    ∧ specGrammarParse "https://github.com/a/b/issues/12xyz".toList = none :=
  ⟨by decide, by decide⟩

/-- C1 amended: every token *inside* the grammar of §4.1 parses to
exactly the specified `IssueRef` (soundness over all strings), and the
five concrete examples hold; but the converse fails — tokens outside
the grammar can also be accepted, because the URL rules match by
prefix. -/
theorem parseIssueRef_spec_amended :
    (∀ (s : List Char) (r : IssueRef),
        specGrammarParse s = some r → parseIssueRef s = some r)
    ∧ parseIssueRef "#42".toList = some ⟨.github, "42", none⟩
    ∧ parseIssueRef "acme/widgets#42".toList
        = some ⟨.github, "42", some "acme/widgets"⟩
    ∧ parseIssueRef "https://github.com/acme/widgets/pull/7".toList
        = some ⟨.github, "7", some "acme/widgets"⟩
    ∧ parseIssueRef "ENG-123".toList = some ⟨.linear, "ENG-123", none⟩
    ∧ parseIssueRef "sentry:987".toList = some ⟨.sentry, "987", none⟩ :=
  ⟨fun _ _ h => specGrammarParse_sound h,
   by decide, by decide, by decide, by decide, by decide⟩

/-- C1 witness: the soundness part applied to a concrete in-grammar
token. -/
theorem parseIssueRef_spec_amended_witness :
    parseIssueRef "https://linear.app/team/issue/PROJ-123".toList
      = some ⟨.linear, "PROJ-123", none⟩ :=
  parseIssueRef_spec_amended.1 "https://linear.app/team/issue/PROJ-123".toList
    ⟨.linear, "PROJ-123", none⟩ (by decide)
